import Mathlib

/-!
Verification of the fourth-note extraction pipeline and field-attribution
store.  The definitions below are a shallow embedding of the Python source
under `backend/app`: the `FieldValue` write path
(`ExtractionService._create_field_values` / `EmailOrchestrator._create_field_values`),
the denormalized-column update (`_update_denormalized_fields`), the record
matcher (`_find_matching_investment`), the per-document pipeline
(`ExtractionService.process_document`, `EmailOrchestrator.process_email` /
`_process_document`), the progress bus (`services/progress.py`) and the
Gmail ingestion step (`EmailProcessor.process_message`).
-/

namespace FourthNote

/-- A leader entry as produced by the extraction mapping step:
`(name, linkedin_url)`, mirroring the dicts
`{"name": ..., "linkedin_url": ...}` built in `_map_fields` and in
`EmailOrchestrator._process_document`. -/
abbrev Leader := String × Option String

/-- A mapped field value as held in `mapped_fields`: either a plain string
(`str(value)` in `_map_fields`) or the structured leaders list. -/
inductive FieldVal where
  | str (s : String)
  | leaders (ls : List Leader)
deriving DecidableEq, Repr

/-- JSON rendering of a string (quoting; escaping of the plain-ASCII values
this path produces is the identity and is elided). -/
def jsonString (s : String) : String := "\"" ++ s ++ "\""

/-- JSON rendering of one leader dict, with `json.dumps` default
separators and the source's key insertion order. -/
def leaderJson (l : Leader) : String :=
  "\x7b\"name\": " ++ jsonString l.1 ++ ", \"linkedin_url\": " ++
    (match l.2 with
     | none => "null"
     | some u => jsonString u) ++ "\x7d"

/-- JSON rendering of the leaders list (`json.dumps` on a list of dicts). -/
def leadersJson (ls : List Leader) : String :=
  "[" ++ String.intercalate ", " (ls.map leaderJson) ++ "]"

/-- The `stored_value` computation of `_create_field_values`:
`json.dumps(field_value)` for lists, `str(field_value)` otherwise. -/
def serializeVal : FieldVal → String
  | .str s => s
  | .leaders ls => leadersJson ls

/-- One row of the `field_values` table (model `FieldValue`), with the
columns the write path populates.  `effectiveDate` stays `none` on this
path (the constructor in `_create_field_values` does not pass it). -/
structure FVRow where
  investmentId : Nat
  fieldName : String
  fieldValue : Option String
  sourceType : String
  sourceId : Nat
  sourceName : String
  effectiveDate : Option Nat
  isCurrent : Bool
  confidence : String
deriving DecidableEq, Repr

/-- The UPDATE of `_create_field_values`: rows matching
`(investment_id, field_name, is_current=True)` get `is_current=False`;
all other rows are untouched. -/
def flipCurrent (inv : Nat) (fn : String) (r : FVRow) : FVRow :=
  if r.investmentId = inv ∧ r.fieldName = fn ∧ r.isCurrent = true then
    { r with isCurrent := false }
  else r

/-- The freshly inserted `FieldValue` of `_create_field_values`. -/
def newRow (inv : Nat) (fn : String) (v : FieldVal) (docId : Nat) (docName : String) : FVRow :=
  { investmentId := inv
    fieldName := fn
    fieldValue := some (serializeVal v)
    sourceType := "document"
    sourceId := docId
    sourceName := docName
    effectiveDate := none
    isCurrent := true
    confidence := "medium" }

/-- One non-skipped iteration of the `_create_field_values` loop:
flip every existing current row for `(inv, fn)`, then append the new
current row. -/
def writeField (inv : Nat) (fn : String) (v : FieldVal) (docId : Nat) (docName : String)
    (rows : List FVRow) : List FVRow :=
  rows.map (flipCurrent inv fn) ++ [newRow inv fn v docId docName]

/-- `ExtractionService._create_field_values` / the orchestrator's copy:
iterate `mapped_fields` in order; entries with value `None` are skipped
(`continue`), every other entry performs the flip-then-insert. -/
def createFieldValues (inv : Nat) (fields : List (String × Option FieldVal))
    (docId : Nat) (docName : String) (rows : List FVRow) : List FVRow :=
  fields.foldl
    (fun rs p =>
      match p.2 with
      | none => rs
      | some v => writeField inv p.1 v docId docName rs)
    rows

/-- Decidable row predicate: the row is a current value of field `fn` of
investment `inv`. -/
def currentP (inv : Nat) (fn : String) (r : FVRow) : Bool :=
  decide (r.investmentId = inv ∧ r.fieldName = fn ∧ r.isCurrent = true)

/-- All current rows for `(inv, fn)`, in table order. -/
def currentRows (rows : List FVRow) (inv : Nat) (fn : String) : List FVRow :=
  rows.filter (currentP inv fn)

/-- Projection of the store onto its current value for `(inv, fn)`. -/
def currentValue (rows : List FVRow) (inv : Nat) (fn : String) : Option String :=
  (currentRows rows inv fn).head?.bind FVRow.fieldValue

/-- Number of current rows for `(inv, fn)` whose `effective_date` is null. -/
def currentNullCount (rows : List FVRow) (inv : Nat) (fn : String) : Nat :=
  (rows.filter (fun r => currentP inv fn r && decide (r.effectiveDate = none))).length

/-- `_update_denormalized_fields`: `setattr` the denormalized column for
every mapped field whose value is not `None`, in iteration order. -/
def updateDenormalizedFields (fields : List (String × Option FieldVal))
    (d : String → Option FieldVal) : String → Option FieldVal :=
  fields.foldl
    (fun d p =>
      match p.2 with
      | none => d
      | some v => fun x => if x = p.1 then some v else d x)
    d

/-- One mutation through the extraction write path: the pair of calls
`_create_field_values(investment, mapped_fields, document)` followed by
`_update_denormalized_fields(investment, mapped_fields)`, always made with
the same `mapped_fields`. -/
structure WriteOp where
  investmentId : Nat
  fields : List (String × Option FieldVal)
  docId : Nat
  docName : String

/-- Store state: the `field_values` table plus the denormalized columns of
every investment (a field-name-indexed mapping per investment id). -/
structure StoreState where
  rows : List FVRow
  denorm : Nat → String → Option FieldVal

/-- Apply one extraction write to the store: rows via
`_create_field_values`, the written investment's denormalized columns via
`_update_denormalized_fields`. -/
def applyWrite (w : WriteOp) (st : StoreState) : StoreState :=
  { rows := createFieldValues w.investmentId w.fields w.docId w.docName st.rows
    denorm := fun i =>
      if i = w.investmentId then updateDenormalizedFields w.fields (st.denorm i)
      else st.denorm i }

/-- The denormalized columns of a freshly constructed `Investment` row:
`Investment(user_id=...)` leaves every column at its declared default, and
`leaders_json` is declared with `default=list`, so it is inserted as the
empty list `[]` while every other denormalized column is NULL. -/
def defaultInvFields : String → Option FieldVal :=
  fun f => if f = "leaders_json" then some (.leaders []) else none

/-- The store at genesis: no rows, every investment's denormalized
columns at their `Investment()` creation defaults (`leaders_json = []`,
all other columns NULL). -/
def emptyStore : StoreState := ⟨[], fun _ => defaultInvFields⟩

/-- A sequence of extraction writes applied in order. -/
def applyWrites (ws : List WriteOp) (st : StoreState) : StoreState :=
  ws.foldl (fun s w => applyWrite w s) st

/-! ## Record matcher (`_find_matching_investment`)

The matcher receives the candidate `investment_name` and `firm`
(each `Optional[str]`) and queries the current user's investments.  The
list below stands for the rows in the order the database returns them
(the queries use `.first()` with no `ORDER BY`). -/

/-- The name/firm projection of an `Investment` row as seen by the
matcher: `(id, investment_name, firm)`. -/
structure MatchRec where
  rid : Nat
  name : Option String
  firm : Option String
deriving DecidableEq, Repr

/-- Python truthiness of an `Optional[str]`: `None` and the empty string
are falsy. -/
def pyTruthy : Option String → Bool
  | none => false
  | some s => decide (s ≠ "")

/-- Lowercasing as used by both SQL `lower` and Python `.lower()` on the
ASCII data this path handles (structural, character by character). -/
def lowerStr (s : String) : String := String.mk (s.data.map Char.toLower)

/-- SQL `lower(column) == lower(param)` with NULL semantics: a NULL
column never matches. -/
def ciEq (column : Option String) (param : String) : Bool :=
  match column with
  | none => false
  | some s => decide (lowerStr s = lowerStr param)

/-- Python `a.lower() in b.lower()`: case-insensitive substring test. -/
def ciSubstr (a b : String) : Bool :=
  decide (List.IsInfix (lowerStr a).data (lowerStr b).data)

/-- The name-compatibility test of the firm-only branch:
`not name or not existing.investment_name or name.lower() in
existing.investment_name.lower() or existing.investment_name.lower() in
name.lower()`. -/
def nameCompatible (name rname : Option String) : Bool :=
  !pyTruthy name || !pyTruthy rname ||
    (match name, rname with
     | some n, some rn => ciSubstr n rn || ciSubstr rn n
     | _, _ => false)

/-- `_find_matching_investment(name, firm, user_id)` over the user's rows
`records` in database return order: return `None` when both inputs are
falsy; else try `.first()` on exact case-insensitive equality of both
name and firm; else, when a firm is given, take `.first()` on firm
equality alone and accept it only if `nameCompatible` holds for that one
row; else `None`. -/
def findMatchingInvestment (name firm : Option String) (records : List MatchRec) :
    Option MatchRec :=
  if !pyTruthy name && !pyTruthy firm then none
  else
    let step1 : Option MatchRec :=
      if pyTruthy name && pyTruthy firm then
        match name, firm with
        | some n, some f => records.find? (fun r => ciEq r.name n && ciEq r.firm f)
        | _, _ => none
      else none
    match step1 with
    | some r => some r
    | none =>
      if pyTruthy firm then
        match firm with
        | some f =>
          match records.find? (fun r => ciEq r.firm f) with
          | some r => if nameCompatible name r.name then some r else none
          | none => none
        | none => none
      else none

/-! ## Pipeline model

`ExtractionService.process_document` / `process_pending_documents` and
`EmailOrchestrator.process_email` / `_process_document`, with the
collaborators (PDF conversion, AI extraction, triage) abstracted as
values of `CollabResult`: the structured data they returned, or the error
message of the exception they raised. -/

/-- A progress event as emitted through `ProgressTracker.emit`; the
heterogeneous `details` dict is not modelled, no claim depends on it. -/
structure Event where
  step : String
  message : String
deriving DecidableEq, Repr

/-- Outcome of a collaborator call: structured data or a raised error. -/
inductive CollabResult (α : Type) where
  | ok (a : α)
  | err (msg : String)
deriving DecidableEq, Repr

/-- The unit-of-work columns of a `Document` row that the pipeline
mutates. -/
structure DocState where
  status : String
  errorMessage : Option String
  markdownContent : Option String
deriving DecidableEq, Repr

/-- An `Investment` row: id, owner, and the denormalized field columns
(`investment_name`, `firm`, `leaders_json`, ...) as a mapping from column
name to value. -/
structure InvRow where
  id : Nat
  userId : Nat
  fields : String → Option FieldVal

/-- Shared database-plus-bus state threaded through the pipeline. -/
structure AppState where
  investments : List InvRow
  nextInvId : Nat
  rows : List FVRow
  links : List (Nat × Nat)
  events : List Event

/-- `progress.emit(step, message, ...)` as seen by the pipeline: the
event is appended to the tracker's log. -/
def emitEvent (st : AppState) (step msg : String) : AppState :=
  { st with events := st.events ++ [⟨step, msg⟩] }

/-- Python `mapped_fields.get(k)`: `None` both when the key is absent and
when it is present with value `None`. -/
def getField (fields : List (String × Option FieldVal)) (k : String) : Option FieldVal :=
  (fields.find? (fun p => p.1 == k)).bind (fun p => p.2)

/-- Python `mapped_fields[k] = v`: replace in place, else append. -/
def setField (fields : List (String × Option FieldVal)) (k : String) (v : Option FieldVal) :
    List (String × Option FieldVal) :=
  if fields.any (fun p => p.1 == k) then
    fields.map (fun p => if p.1 == k then (p.1, v) else p)
  else fields ++ [(k, v)]

/-- The matcher reads `mapped_fields.get("investment_name")` /
`.get("firm")`, which on these keys is a string or `None`. -/
def getStr : Option FieldVal → Option String
  | some (.str s) => some s
  | _ => none

/-- Projection of an `Investment` row to what the matcher's query
compares: id, `investment_name` and `firm` columns. -/
def toMatchRec (iv : InvRow) : MatchRec :=
  ⟨iv.id, getStr (iv.fields "investment_name"), getStr (iv.fields "firm")⟩

/-- Find-or-create of the save step: `_find_matching_investment` over the
user's investments in database order; on no match, construct
`Investment(user_id=...)` and flush to obtain a fresh id — the flush
applies the declared column defaults, so the new row starts with
`leaders_json = []` and every other denormalized column NULL.  Returns
(state, investment id, is_new). -/
def resolveInvestment (docUserId : Nat) (fields : List (String × Option FieldVal))
    (st : AppState) : AppState × Nat × Bool :=
  let recs := (st.investments.filter (fun iv => iv.userId == docUserId)).map toMatchRec
  match findMatchingInvestment (getStr (getField fields "investment_name"))
      (getStr (getField fields "firm")) recs with
  | some r => (st, r.rid, false)
  | none =>
      (⟨st.investments ++ [⟨st.nextInvId, docUserId, defaultInvFields⟩], st.nextInvId + 1,
         st.rows, st.links, st.events⟩, st.nextInvId, true)

/-- Idempotent `InvestmentDocument` link: insert `(investment, document)`
unless the pair already exists. -/
def linkDocument (invId docId : Nat) (st : AppState) : AppState :=
  if st.links.any (fun p => p.1 == invId && p.2 == docId) then st
  else { st with links := st.links ++ [(invId, docId)] }

/-- The two write calls made with the same `mapped_fields`:
`_create_field_values` on the rows, `_update_denormalized_fields` on the
matched investment's columns. -/
def applyFieldWrites (invId : Nat) (fields : List (String × Option FieldVal))
    (docId : Nat) (docName : String) (st : AppState) : AppState :=
  { st with
    rows := createFieldValues invId fields docId docName st.rows
    investments := st.investments.map (fun iv =>
      if iv.id == invId then { iv with fields := updateDenormalizedFields fields iv.fields }
      else iv) }

/-- Display text of `mapped_fields.get(k, "Unknown")` inside the final
f-string: "Unknown" when the key is absent, the Python rendering of the
value otherwise. -/
def displayField (fields : List (String × Option FieldVal)) (k : String) : String :=
  match fields.find? (fun p => p.1 == k) with
  | none => "Unknown"
  | some p =>
    match p.2 with
    | none => "None"
    | some v => serializeVal v

/-- A document unit together with the outcomes of its own collaborator
calls: PDF conversion and extraction.  `extLeaders` carries the raw
leader names of the extraction agent's `leaders_raw` (a `none` entry is a
leader dict without a name, rendered "Unknown"); only the orchestrator
path uses it. -/
structure DocSpec where
  docId : Nat
  userId : Nat
  filename : String
  conv : CollabResult String
  ext : CollabResult (List (String × Option FieldVal))
  extLeaders : List (Option String)
deriving Repr

/-- The orchestrator's leaders step: each raw leader becomes
`{"name": leader.get("name", "Unknown"), "linkedin_url": None}`; an empty
`leaders_raw` yields the empty list. -/
def leadersFromRaw (ls : List (Option String)) : List Leader :=
  ls.map (fun n => (n.getD "Unknown", none))

/-- Shared tail of both save paths: find-or-create the investment, link
the document, write field values and denormalized columns, emit the final
"Created/Updated" event. -/
def saveInvestment (d : DocSpec) (fields : List (String × Option FieldVal))
    (st : AppState) : AppState × Nat :=
  let r := resolveInvestment d.userId fields st
  let st := r.1
  let invId := r.2.1
  let isNew := r.2.2
  let st := linkDocument invId d.docId st
  let st := applyFieldWrites invId fields d.docId d.filename st
  let st := emitEvent st "extraction"
    ((if isNew then "Created" else "Updated") ++ ": " ++
      displayField fields "investment_name" ++ " (" ++ displayField fields "firm" ++ ")")
  (st, invId)

/-- `ExtractionService.process_document`: emit/commit each stage, catch
any exception at the unit boundary (emit an "error" event, set status
`failed` and `error_message`).  Returns (state, document state, returned
investment id or `None`). -/
def processDocumentSvc (d : DocSpec) (st : AppState) : AppState × DocState × Option Nat :=
  let st := emitEvent st "processing" ("Converting PDF: " ++ d.filename)
  match d.conv with
  | .err e =>
      let st := emitEvent st "error" ("Failed: " ++ d.filename ++ ": " ++ e)
      (st, ⟨"failed", some e, none⟩, none)
  | .ok md =>
      let st := emitEvent st "extraction" ("Sending to Gemini AI: " ++ d.filename)
      match d.ext with
      | .err e =>
          let st := emitEvent st "error" ("Failed: " ++ d.filename ++ ": " ++ e)
          (st, ⟨"failed", some e, some md⟩, none)
      | .ok fields =>
          let r := saveInvestment d fields st
          (r.1, ⟨"completed", none, some md⟩, some r.2)

/-- `EmailOrchestrator._process_document` under the per-document
`try/except` of `process_email`: the same stages, but an exception is
caught in the loop of `process_email`, which only logs, sets status
`failed` with the message, and commits — it emits no event. -/
def processDocumentOrch (d : DocSpec) (st : AppState) : AppState × DocState × Option Nat :=
  let st := emitEvent st "processing" ("Converting PDF: " ++ d.filename)
  match d.conv with
  | .err e => (st, ⟨"failed", some e, none⟩, none)
  | .ok md =>
      let st := emitEvent st "extraction" ("Extracting data: " ++ d.filename)
      match d.ext with
      | .err e => (st, ⟨"failed", some ("Extraction failed: " ++ e), some md⟩, none)
      | .ok fields =>
          let fields := setField fields "leaders_json"
            (some (.leaders (leadersFromRaw d.extLeaders)))
          let r := saveInvestment d fields st
          (r.1, ⟨"completed", none, some md⟩, some r.2)

/-- One iteration of the `process_pending_documents` loop: emit the
per-document progress event, run `process_document`, append the unit's
final state and (when returned) its investment. -/
def svcBatchStep (acc : AppState × List DocState × List Nat) (d : DocSpec) :
    AppState × List DocState × List Nat :=
  let st := emitEvent acc.1 "processing" ("Processing: " ++ d.filename)
  let r := processDocumentSvc d st
  (r.1, acc.2.1 ++ [r.2.1], acc.2.2 ++ r.2.2.toList)

/-- `ExtractionService.process_pending_documents`: emit the batch events
and drive each pending document through `process_document`, collecting
the non-`None` investments.  Returns (state, per-document states,
investment ids). -/
def processPendingDocuments (docs : List DocSpec) (st : AppState) :
    AppState × List DocState × List Nat :=
  if docs.isEmpty then
    (emitEvent st "processing" "No pending documents to process", [], [])
  else
    let st2 := emitEvent st "processing"
      ("Found " ++ toString docs.length ++ " documents to process")
    docs.foldl svcBatchStep (st2, [], [])

/-- The triage agent's classification values. -/
inductive TriageClass where
  | yes
  | no
  | unsure
deriving DecidableEq, Repr

/-- `process_email` folds the classification: a failed triage call is
treated as UNSURE and processing continues. -/
def classOf : CollabResult TriageClass → TriageClass
  | .ok c => c
  | .err _ => .unsure

/-- One iteration of the per-document loop of `process_email`: run
`_process_document` under its own `try/except`, append the unit's final
state and (when returned) its investment. -/
def orchBatchStep (acc : AppState × List DocState × List Nat) (d : DocSpec) :
    AppState × List DocState × List Nat :=
  let r := processDocumentOrch d acc.1
  (r.1, acc.2.1 ++ [r.2.1], acc.2.2 ++ r.2.2.toList)

/-- `EmailOrchestrator.process_email`: triage first; on NO emit one
"triage" event, set the email status to `skipped` and return the empty
list; otherwise drive every document through `_process_document`, each
under its own `try/except`.  Returns (state, email status, per-document
states, investments). -/
def processEmail (tri : CollabResult TriageClass) (subject : String)
    (docs : List DocSpec) (emailStatus : String) (st : AppState) :
    AppState × String × List DocState × List Nat :=
  if classOf tri = .no then
    let st := emitEvent st "triage" ("Skipped: " ++ subject ++ " (not investment-related)")
    (st, "skipped", docs.map (fun _ => ⟨"pending", none, none⟩), [])
  else
    let r := docs.foldl orchBatchStep (st, [], [])
    (r.1, emailStatus, r.2.1, r.2.2)

/-- Terminal state a unit reaches from its own collaborator outcomes
alone: failed when its conversion or extraction failed, completed
otherwise. -/
def ownStatus (d : DocSpec) : String :=
  match d.conv with
  | .err _ => "failed"
  | .ok _ =>
    match d.ext with
    | .err _ => "failed"
    | .ok _ => "completed"

/-- Error message recorded for a unit on the service path. -/
def ownErrorSvc (d : DocSpec) : Option String :=
  match d.conv with
  | .err e => some e
  | .ok _ =>
    match d.ext with
    | .err e => some e
    | .ok _ => none

/-- Error message recorded for a unit on the orchestrator path (the
extraction failure is re-raised wrapped). -/
def ownErrorOrch (d : DocSpec) : Option String :=
  match d.conv with
  | .err e => some e
  | .ok _ =>
    match d.ext with
    | .err e => some ("Extraction failed: " ++ e)
    | .ok _ => none

/-- Count of error-step events in a log. -/
def errorEventCount (events : List Event) : Nat :=
  events.countP (fun e => e.step == "error")

/-! ## Progress bus (`services/progress.py`) -/

/-- `ProgressTracker`: the historical event list and, per subscriber, its
bounded `asyncio.Queue` (created with `maxsize=100`), in subscription
order. -/
structure Tracker where
  events : List Event
  listeners : List (List Event)
  currentStep : String

/-- `ProgressTracker.emit`: append to the historical list, then
`put_nowait` into every listener queue, swallowing `QueueFull` — a full
queue drops the event for that subscriber only, and the emitter never
blocks. -/
def trackerEmit (t : Tracker) (e : Event) : Tracker :=
  { events := t.events ++ [e]
    currentStep := e.step
    listeners := t.listeners.map (fun q => if q.length < 100 then q ++ [e] else q) }

/-- `ProgressTracker.subscribe`: append a fresh empty queue; the new
subscriber's handle is its index. -/
def trackerSubscribe (t : Tracker) : Tracker × Nat :=
  ({ t with listeners := t.listeners ++ [[]] }, t.listeners.length)

/-- `ProgressTracker.clear`: reset the historical buffer only; the
subscriber queues are untouched. -/
def trackerClear (t : Tracker) : Tracker :=
  { t with events := [], currentStep := "" }

/-! ## Gmail ingestion (`EmailProcessor.process_message`) -/

/-- One MIME part of a Gmail payload: filename, optional attachment id,
nested sub-parts. -/
inductive MsgPart where
  | node (filename : String) (attachmentId : Option String) (subparts : List MsgPart)

/-- Python `filename.lower().endswith(".pdf")`. -/
def endsWithPdf (s : String) : Bool := List.isSuffixOf ".pdf".data (lowerStr s).data

mutual

/-- One step of `_find_pdf_attachments`'s `scan_parts`: the part's own
attachment (when its filename ends in ".pdf" case-insensitively and its
body has an attachment id) followed by the attachments of its nested
parts. -/
def scanPart : MsgPart → List (String × String)
  | MsgPart.node fn aid subs =>
      (match aid with
       | some a => if endsWithPdf fn then [(fn, a)] else []
       | none => []) ++ scanParts subs

/-- `scan_parts` over a list of sibling parts, in order. -/
def scanParts : List MsgPart → List (String × String)
  | [] => []
  | p :: ps => scanPart p ++ scanParts ps

end

/-- A Gmail message as fetched: its id, top-level payload parts, and
headers. -/
structure GmailMsg where
  mid : String
  payload : List MsgPart
  headers : List (String × String)

/-- `_extract_header`: first header whose name matches
case-insensitively. -/
def extractHeader (headers : List (String × String)) (name : String) : Option String :=
  (headers.find? (fun h => lowerStr h.1 == lowerStr name)).map (fun h => h.2)

/-- `sanitize_filename`: drop non-ASCII characters, replace the
characters `<angle brackets, colon, double quote, slashes, pipe,
question mark, asterisk>` (codes 60 62 58 34 47 92 124 63 42) with an
underscore, and fall back to "attachment.pdf" when the result is empty or
just ".pdf". -/
def sanitizeFilename (s : String) : String :=
  let ascii := String.mk (s.data.filter (fun c => c.toNat < 128))
  let repl := String.mk (ascii.data.map (fun c =>
    if c.toNat ∈ [60, 62, 58, 34, 47, 92, 124, 63, 42] then Char.ofNat 95 else c))
  if repl = "" ∨ repl = ".pdf" then "attachment.pdf" else repl

/-- An `Email` row as created by ingestion. -/
structure EmailRow where
  eid : Nat
  gmailMessageId : String
  subject : Option String
  sender : Option String
  status : String
deriving DecidableEq, Repr

/-- A `Document` row as created by ingestion. -/
structure DocRow where
  emailId : Nat
  filename : String
  filePath : String
  status : String
deriving DecidableEq, Repr

/-- Persistent state touched by ingestion: email rows, document rows,
saved attachment files, and the id allocator. -/
structure MailState where
  emails : List EmailRow
  documents : List DocRow
  files : List String
  nextId : Nat
deriving DecidableEq, Repr

/-- `is_message_processed`: an `Email` row with this
`gmail_message_id` already exists. -/
def isMessageProcessed (st : MailState) (gmailMessageId : String) : Bool :=
  st.emails.any (fun r => r.gmailMessageId == gmailMessageId)

/-- Disk path of a saved attachment (`data/emails/<email id>/<safe
name>`). -/
def attachmentPath (eid : Nat) (filename : String) : String :=
  "emails/" ++ toString eid ++ "/" ++ sanitizeFilename filename

/-- `EmailProcessor.process_message`: skip (returning `None`) when the
message id is already recorded or the message has no PDF attachments;
otherwise create the `Email` row with status `processing`, save each
attachment and create its pending `Document` row, and commit. -/
def processMessage (msg : GmailMsg) (st : MailState) : MailState × Option Nat :=
  if isMessageProcessed st msg.mid then (st, none)
  else
    let atts := scanParts msg.payload
    if atts.isEmpty then (st, none)
    else
      let eid := st.nextId
      let email : EmailRow :=
        ⟨eid, msg.mid, extractHeader msg.headers "Subject",
          extractHeader msg.headers "From", "processing"⟩
      let docs := atts.map (fun a =>
        (⟨eid, sanitizeFilename a.1, attachmentPath eid a.1, "pending"⟩ : DocRow))
      (⟨st.emails ++ [email], st.documents ++ docs,
         st.files ++ atts.map (fun a => attachmentPath eid a.1), st.nextId + 1⟩,
       some eid)

/-! ## Store lemmas -/

/-- Number of current rows for `(inv, fn)` regardless of effective date. -/
def currentCount (rows : List FVRow) (inv : Nat) (fn : String) : Nat :=
  (rows.filter (currentP inv fn)).length

theorem currentP_flip_self (inv : Nat) (fn : String) (r : FVRow) :
    currentP inv fn (flipCurrent inv fn r) = false := by
  unfold flipCurrent
  split
  · simp [currentP]
  · rename_i h
    simp only [currentP, decide_eq_false_iff_not]
    exact h

theorem currentP_flip_ne {inv2 inv : Nat} {fn2 fn : String}
    (h : ¬(inv2 = inv ∧ fn2 = fn)) (r : FVRow) :
    currentP inv2 fn2 (flipCurrent inv fn r) = currentP inv2 fn2 r := by
  unfold flipCurrent
  split
  · rename_i hc
    obtain ⟨h1, h2, _⟩ := hc
    have hr : currentP inv2 fn2 r = false := by
      simp only [currentP, decide_eq_false_iff_not]
      rintro ⟨a, b, _⟩
      exact h ⟨a.symm.trans h1, b.symm.trans h2⟩
    rw [hr]
    simp [currentP]
  · rfl

theorem flip_eq_self_of_current_ne {inv2 inv : Nat} {fn2 fn : String}
    (h : ¬(inv2 = inv ∧ fn2 = fn)) {r : FVRow} (hr : currentP inv2 fn2 r = true) :
    flipCurrent inv fn r = r := by
  unfold flipCurrent
  rw [if_neg]
  rintro ⟨h1, h2, _⟩
  simp only [currentP, decide_eq_true_eq] at hr
  obtain ⟨a, b, _⟩ := hr
  exact h ⟨a.symm.trans h1, b.symm.trans h2⟩

theorem filter_flip_self (inv : Nat) (fn : String) (rows : List FVRow) :
    (rows.map (flipCurrent inv fn)).filter (currentP inv fn) = [] := by
  rw [List.filter_eq_nil_iff]
  intro r hr
  obtain ⟨s, _, rfl⟩ := List.mem_map.mp hr
  simp [currentP_flip_self]

theorem filter_flip_ne {inv2 inv : Nat} {fn2 fn : String}
    (h : ¬(inv2 = inv ∧ fn2 = fn)) (rows : List FVRow) :
    (rows.map (flipCurrent inv fn)).filter (currentP inv2 fn2) =
      rows.filter (currentP inv2 fn2) := by
  induction rows with
  | nil => rfl
  | cons a as ih =>
    by_cases hp : currentP inv2 fn2 a = true
    · rw [List.map_cons, List.filter_cons_of_pos, List.filter_cons_of_pos hp, ih]
      · rw [flip_eq_self_of_current_ne h hp]
      · rw [currentP_flip_ne h a, hp]
    · rw [List.map_cons, List.filter_cons_of_neg, List.filter_cons_of_neg, ih]
      · simpa using hp
      · rw [currentP_flip_ne h a]
        simpa using hp

theorem currentP_newRow_self (inv : Nat) (fn : String) (v : FieldVal)
    (docId : Nat) (docName : String) :
    currentP inv fn (newRow inv fn v docId docName) = true := by
  simp [currentP, newRow]

theorem currentP_newRow_ne {inv2 inv : Nat} {fn2 fn : String}
    (h : ¬(inv2 = inv ∧ fn2 = fn)) (v : FieldVal) (docId : Nat) (docName : String) :
    currentP inv2 fn2 (newRow inv fn v docId docName) = false := by
  simp only [currentP, newRow, decide_eq_false_iff_not]
  rintro ⟨a, b, _⟩
  exact h ⟨a.symm, b.symm⟩

theorem filter_writeField_self (inv : Nat) (fn : String) (v : FieldVal)
    (docId : Nat) (docName : String) (rows : List FVRow) :
    (writeField inv fn v docId docName rows).filter (currentP inv fn) =
      [newRow inv fn v docId docName] := by
  unfold writeField
  rw [List.filter_append, filter_flip_self]
  simp [currentP_newRow_self]

theorem filter_writeField_ne {inv2 inv : Nat} {fn2 fn : String}
    (h : ¬(inv2 = inv ∧ fn2 = fn)) (v : FieldVal) (docId : Nat) (docName : String)
    (rows : List FVRow) :
    (writeField inv fn v docId docName rows).filter (currentP inv2 fn2) =
      rows.filter (currentP inv2 fn2) := by
  unfold writeField
  rw [List.filter_append, filter_flip_ne h]
  simp [currentP_newRow_ne h]

theorem createFieldValues_cons (inv : Nat) (p : String × Option FieldVal)
    (ps : List (String × Option FieldVal)) (docId : Nat) (docName : String)
    (rows : List FVRow) :
    createFieldValues inv (p :: ps) docId docName rows =
      createFieldValues inv ps docId docName
        (match p.2 with
         | none => rows
         | some v => writeField inv p.1 v docId docName rows) := rfl

theorem currentCount_writeField_le {rows : List FVRow}
    (h : ∀ i f, currentCount rows i f ≤ 1) (inv : Nat) (fn : String) (v : FieldVal)
    (docId : Nat) (docName : String) :
    ∀ i f, currentCount (writeField inv fn v docId docName rows) i f ≤ 1 := by
  intro i f
  by_cases hif : i = inv ∧ f = fn
  · obtain ⟨rfl, rfl⟩ := hif
    rw [currentCount, filter_writeField_self]
    simp
  · rw [currentCount, filter_writeField_ne hif]
    exact h i f

theorem currentCount_createFieldValues_le (inv : Nat)
    (fields : List (String × Option FieldVal)) (docId : Nat) (docName : String) :
    ∀ rows : List FVRow, (∀ i f, currentCount rows i f ≤ 1) →
      ∀ i f, currentCount (createFieldValues inv fields docId docName rows) i f ≤ 1 := by
  induction fields with
  | nil => exact fun rows h => h
  | cons p ps ih =>
    intro rows h
    rw [createFieldValues_cons]
    match hp : p.2 with
    | none => exact ih rows h
    | some v => exact ih _ (currentCount_writeField_le h inv p.1 v docId docName)

theorem currentCount_applyWrites_le (ws : List WriteOp) :
    ∀ st : StoreState, (∀ i f, currentCount st.rows i f ≤ 1) →
      ∀ i f, currentCount (applyWrites ws st).rows i f ≤ 1 := by
  induction ws with
  | nil => exact fun st h => h
  | cons w ws ih =>
    intro st h
    exact ih (applyWrite w st)
      (currentCount_createFieldValues_le w.investmentId w.fields w.docId w.docName st.rows h)

theorem currentNullCount_le_currentCount (rows : List FVRow) (inv : Nat) (fn : String) :
    currentNullCount rows inv fn ≤ currentCount rows inv fn := by
  rw [currentNullCount, currentCount, ← List.countP_eq_length_filter,
    ← List.countP_eq_length_filter]
  refine List.countP_mono_left ?_
  intro r _ hr
  exact (Bool.and_eq_true _ _ |>.mp hr).1

/-- Claim C1: after any sequence of writes through the field-value
creation path starting from an empty store, at most one `FieldValue` row
with `(investment_id, field_name, effective_date = null)` has
`is_current = true`: each write flips every existing current version for
the pair to not-current, then inserts the new version as the single
current one. -/
theorem claim1_at_most_one_current (ws : List WriteOp) (inv : Nat) (fn : String) :
    currentNullCount (applyWrites ws emptyStore).rows inv fn ≤ 1 := by
  refine le_trans (currentNullCount_le_currentCount _ inv fn) ?_
  refine currentCount_applyWrites_le ws emptyStore ?_ inv fn
  intro i f
  simp [currentCount, emptyStore]

/-- History of a field of an investment: all its rows, in table order. -/
def historyRows (rows : List FVRow) (inv : Nat) (fn : String) : List FVRow :=
  rows.filter (fun r => r.investmentId == inv && r.fieldName == fn)

/-- Claim C2 counterexample: writing an empty string (and, on the
orchestrator path, the always-present empty leaders list) is NOT a no-op:
`_create_field_values` only skips `None`; an empty-string firm and an
empty `leaders_json` list each append a new current row, growing the
history. -/
theorem claim2_counterexample :
    (historyRows (createFieldValues 1 [("firm", some (FieldVal.str ""))] 7 "deck.pdf" [])
        1 "firm").length = 1 ∧
    (historyRows (createFieldValues 1 [("leaders_json", some (FieldVal.leaders []))] 7
        "deck.pdf" []) 1 "leaders_json").length = 1 ∧
    (createFieldValues 1 [("firm", some (FieldVal.str ""))] 7 "deck.pdf" []).length ≠ 0 := by
  refine ⟨rfl, rfl, ?_⟩
  decide

/-- Claim C2 as amended: only fields whose extracted value is `None` are
skipped (no new row, no flip, history unchanged); every non-`None` value
— including the empty string and the empty list — performs the
flip-then-insert, so the store grows by exactly the number of
non-`None` entries. -/
theorem claim2_amended (inv : Nat) (fn : String) (docId : Nat) (docName : String) :
    (∀ rows : List FVRow, createFieldValues inv [(fn, none)] docId docName rows = rows) ∧
    (∀ (fields : List (String × Option FieldVal)) (rows : List FVRow),
      (createFieldValues inv fields docId docName rows).length =
        rows.length + fields.countP (fun p => p.2.isSome)) := by
  constructor
  · intro rows
    rfl
  · intro fields
    induction fields with
    | nil => intro rows; simp [createFieldValues]
    | cons p ps ih =>
      intro rows
      rw [createFieldValues_cons]
      match hp : p.2 with
      | none =>
        rw [ih rows]
        simp [List.countP_cons, hp]
      | some v =>
        rw [ih _]
        have hw : (writeField inv p.1 v docId docName rows).length = rows.length + 1 := by
          simp [writeField]
        rw [hw]
        simp [List.countP_cons, hp]
        omega

/-! ## Denormalized view as a projection of the store (C9) -/

theorem currentValue_writeField_self (inv : Nat) (fn : String) (v : FieldVal)
    (docId : Nat) (docName : String) (rows : List FVRow) :
    currentValue (writeField inv fn v docId docName rows) inv fn =
      some (serializeVal v) := by
  rw [currentValue, currentRows, filter_writeField_self]
  rfl

theorem currentValue_writeField_ne {i inv : Nat} {f fn : String}
    (h : ¬(i = inv ∧ f = fn)) (v : FieldVal) (docId : Nat) (docName : String)
    (rows : List FVRow) :
    currentValue (writeField inv fn v docId docName rows) i f =
      currentValue rows i f := by
  rw [currentValue, currentRows, filter_writeField_ne h]
  rfl

theorem updateDenormalizedFields_cons (p : String × Option FieldVal)
    (ps : List (String × Option FieldVal)) (d : String → Option FieldVal) :
    updateDenormalizedFields (p :: ps) d =
      updateDenormalizedFields ps
        (match p.2 with
         | none => d
         | some v => fun x => if x = p.1 then some v else d x) := rfl

theorem denorm_pair (inv docId : Nat) (docName : String)
    (fields : List (String × Option FieldVal)) :
    ∀ (rows : List FVRow) (d : Nat → String → Option FieldVal),
      (∀ i f, (d i f).map serializeVal =
        (currentValue rows i f).or ((defaultInvFields f).map serializeVal)) →
      ∀ i f,
        ((if i = inv then updateDenormalizedFields fields (d i) else d i) f).map
            serializeVal =
          (currentValue (createFieldValues inv fields docId docName rows) i f).or
            ((defaultInvFields f).map serializeVal) := by
  induction fields with
  | nil =>
    intro rows d h i f
    simp only [updateDenormalizedFields, List.foldl_nil, createFieldValues, ite_self]
    exact h i f
  | cons p ps ih =>
    obtain ⟨fn0, v0⟩ := p
    intro rows d h i f
    rw [createFieldValues_cons, updateDenormalizedFields_cons]
    cases v0 with
    | none => exact ih rows d h i f
    | some v =>
      have h1 : ∀ i f,
          ((fun j => if j = inv then (fun x => if x = fn0 then some v else d j x)
              else d j) i f).map serializeVal =
            (currentValue (writeField inv fn0 v docId docName rows) i f).or
              ((defaultInvFields f).map serializeVal) := by
        intro i f
        by_cases hi : i = inv
        · subst hi
          by_cases hf : f = fn0
          · subst hf
            rw [currentValue_writeField_self]
            simp
          · rw [currentValue_writeField_ne (by rintro ⟨_, hq⟩; exact hf hq), ← h i f]
            simp [hf]
        · rw [currentValue_writeField_ne (by rintro ⟨hq, _⟩; exact hi hq), ← h i f]
          simp [hi]
      have hm := ih (writeField inv fn0 v docId docName rows)
        (fun j => if j = inv then (fun x => if x = fn0 then some v else d j x) else d j)
        h1 i f
      by_cases hi : i = inv
      · subst hi
        simpa only [if_pos rfl] using hm
      · simpa only [if_neg hi] using hm

/-- The denormalized columns agree (after serialization) with the
projection of the current rows overlaid on the `Investment` column
creation defaults. -/
def denormMatches (st : StoreState) : Prop :=
  ∀ i f, (st.denorm i f).map serializeVal =
    (currentValue st.rows i f).or ((defaultInvFields f).map serializeVal)

theorem denormMatches_applyWrite (w : WriteOp) (st : StoreState)
    (h : denormMatches st) : denormMatches (applyWrite w st) := by
  intro i f
  exact denorm_pair w.investmentId w.docId w.docName w.fields st.rows st.denorm h i f

theorem denormMatches_applyWrites (ws : List WriteOp) :
    ∀ st : StoreState, denormMatches st → denormMatches (applyWrites ws st) := by
  induction ws with
  | nil => exact fun st h => h
  | cons w ws ih => exact fun st h => ih (applyWrite w st) (denormMatches_applyWrite w st h)

/-- An application state at genesis. -/
def emptyApp : AppState := ⟨[], 1, [], [], []⟩

/-- The mapped-fields dict `_map_fields` produces when the model returns
`null` for every field: all eight keys present, all values `None`. -/
def nullMappedFields : List (String × Option FieldVal) :=
  [("investment_name", none), ("firm", none), ("strategy_description", none),
   ("leaders_json", none), ("management_fees", none), ("incentive_fees", none),
   ("liquidity_lock", none), ("target_net_returns", none)]

/-- A document whose extraction succeeded but returned `null` for every
field (ExtractionService path; in particular `Leaders/PM/CEO` is null, so
`leaders_json` maps to `None` and is never written). -/
def nullFieldsDoc : DocSpec := ⟨2, 1, "empty.pdf", .ok "md", .ok nullMappedFields, []⟩

/-- Claim C9 counterexample: the denormalized view is NOT equal to the
projection of the current `FieldValue` rows, and is NOT regenerable from
the rows alone.  Processing a document whose extraction returned every
field as null creates a fresh investment whose `leaders_json` column
holds its declared default `[]` (serialized "[]") while NO `FieldValue`
row at all exists for it — the projection gives nothing.  The same
discrepancy shown directly on the store model after one such write. -/
theorem claim9_counterexample :
    ((processDocumentSvc nullFieldsDoc emptyApp).1.investments.map
        (fun iv => (iv.fields "leaders_json").map serializeVal)) = [some "[]"] ∧
    (processDocumentSvc nullFieldsDoc emptyApp).1.rows = [] ∧
    ((applyWrites [⟨1, nullMappedFields, 2, "empty.pdf"⟩] emptyStore).denorm 1
        "leaders_json").map serializeVal ≠
      currentValue (applyWrites [⟨1, nullMappedFields, 2, "empty.pdf"⟩] emptyStore).rows 1
        "leaders_json" ∧
    ((applyWrites [⟨1, nullMappedFields, 2, "empty.pdf"⟩] emptyStore).denorm 1
        "leaders_json").map serializeVal = some "[]" ∧
    currentValue (applyWrites [⟨1, nullMappedFields, 2, "empty.pdf"⟩] emptyStore).rows 1
      "leaders_json" = none := by
  refine ⟨rfl, rfl, by decide, rfl, rfl⟩

/-- Claim C9 as amended: after every sequence of mutations through the
write path (each mutation being the paired `_create_field_values` /
`_update_denormalized_fields` calls on the same mapped fields), the
denormalized columns of every investment equal the projection of the
current `FieldValue` rows OVERLAID ON the `Investment` column creation
defaults: a field with a current row shows exactly that row's stored
value, and a field never written non-null shows its column default (NULL
for every denormalized column except `leaders_json`, which defaults to
the empty list, serialized "[]").  The view is therefore regenerable from
the rows plus the static column defaults, but not from the rows alone. -/
theorem claim9_amended (ws : List WriteOp) (i : Nat) (f : String) :
    ((applyWrites ws emptyStore).denorm i f).map serializeVal =
      (currentValue (applyWrites ws emptyStore).rows i f).or
        ((defaultInvFields f).map serializeVal) :=
  denormMatches_applyWrites ws emptyStore (fun _ _ => rfl) i f

/-! ## Matcher claims (C3, C4) -/

/-- The matching algorithm as the claim words it: in step 2 a match is
accepted if and only if SOME firm-equal record passes the
name-compatibility test (the first such record is returned). -/
def claimedResolve (name firm : Option String) (records : List MatchRec) :
    Option MatchRec :=
  match (if pyTruthy name && pyTruthy firm then
           match name, firm with
           | some n, some f => records.find? (fun r => ciEq r.name n && ciEq r.firm f)
           | _, _ => none
         else none) with
  | some r => some r
  | none =>
    if pyTruthy firm then
      match firm with
      | some f => records.find? (fun r => ciEq r.firm f && nameCompatible name r.name)
      | none => none
    else none

/-- The matching algorithm as amended: step 2 examines only the FIRST
firm-equal record in database return order and applies the
name-compatibility test to that record alone. -/
def amendedResolve (name firm : Option String) (records : List MatchRec) :
    Option MatchRec :=
  match (if pyTruthy name && pyTruthy firm then
           match name, firm with
           | some n, some f => records.find? (fun r => ciEq r.name n && ciEq r.firm f)
           | _, _ => none
         else none) with
  | some r => some r
  | none =>
    if pyTruthy firm then
      match firm with
      | some f =>
        match (records.filter (fun r => ciEq r.firm f)).head? with
        | some r => if nameCompatible name r.name then some r else none
        | none => none
      | none => none
    else none

/-- First existing record: firm "F", name not matching the candidate. -/
def recA : MatchRec := ⟨1, some "Zebra Holdings", some "F"⟩

/-- Second existing record: firm "F", name containing the candidate. -/
def recB : MatchRec := ⟨2, some "Alpha Fund", some "F"⟩

/-- The Beta Capital record of the claim's concrete scenario. -/
def recBeta : MatchRec := ⟨1, some "Beta Growth Fund", some "Beta Capital"⟩

/-- Claim C3 counterexample: with records [Zebra Holdings, Alpha Fund]
(both of firm "F") and candidate (name "Alpha", firm "F"), the code
returns no match although a firm-equal record passing the substring test
exists (the claim's reading of step 2 would return it): the code tests
the name condition only on the first firm-equal row. -/
theorem claim3_counterexample :
    findMatchingInvestment (some "Alpha") (some "F") [recA, recB] = none ∧
    claimedResolve (some "Alpha") (some "F") [recA, recB] = some recB := by
  constructor
  · decide
  · decide

theorem findMatchingInvestment_eq_amendedResolve
    (name firm : Option String) (records : List MatchRec) :
    findMatchingInvestment name firm records = amendedResolve name firm records := by
  by_cases hb : (!pyTruthy name && !pyTruthy firm) = true
  · obtain ⟨hn, hf⟩ : pyTruthy name = false ∧ pyTruthy firm = false := by
      constructor
      · cases hx : pyTruthy name
        · rfl
        · rw [hx] at hb; simp at hb
      · cases hx : pyTruthy firm
        · rfl
        · rw [hx] at hb; simp at hb
    simp [findMatchingInvestment, amendedResolve, hn, hf]
  · have hb' : (!pyTruthy name && !pyTruthy firm) = false := by
      cases hx : (!pyTruthy name && !pyTruthy firm)
      · rfl
      · exact absurd hx hb
    simp only [findMatchingInvestment, amendedResolve, hb', Bool.false_eq_true,
      if_false, List.filter_head?]

/-- Claim C3 as amended: the matcher follows a three-step algorithm in
which (1) when both name and firm are truthy the first record with exact
case-insensitive equality on both is returned; (2) otherwise, when a firm
is supplied, only the FIRST record (in database return order) whose firm
is exactly case-insensitively equal is examined, and it is returned iff
the candidate name is absent, the record's name is absent, or one name is
a case-insensitive substring of the other — later firm-equal records are
never consulted; (3) otherwise no match.  The Beta Capital scenario
(no candidate name) matches as stated. -/
theorem claim3_amended :
    (∀ (name firm : Option String) (records : List MatchRec),
      findMatchingInvestment name firm records = amendedResolve name firm records) ∧
    findMatchingInvestment none (some "Beta Capital") [recBeta] = some recBeta := by
  constructor
  · exact findMatchingInvestment_eq_amendedResolve
  · decide

/-- Claim C4 counterexample: two databases holding the SAME record set in
different return order give different results (a match vs. no match) for
the same input; the queries use `.first()` with no `ORDER BY`, so no
stable "earliest created" ordering is imposed. -/
theorem claim4_counterexample :
    List.Perm [recA, recB] [recB, recA] ∧
    findMatchingInvestment (some "Alpha") (some "F") [recA, recB] = none ∧
    findMatchingInvestment (some "Alpha") (some "F") [recB, recA] = some recB := by
  refine ⟨List.Perm.swap recB recA [], by decide, by decide⟩

theorem step2_result {name : Option String} {f : String} {rs : List MatchRec}
    {r : MatchRec}
    (h : (match rs.find? (fun x => ciEq x.firm f) with
          | some x => if nameCompatible name x.name then some x else none
          | none => none) = some r) :
    r ∈ rs ∧ (rs.filter (fun x => ciEq x.firm f)).head? = some r := by
  cases hfind : rs.find? (fun x => ciEq x.firm f) with
  | none => rw [hfind] at h; exact absurd h (by simp)
  | some x =>
    rw [hfind] at h
    have h2 : (if nameCompatible name x.name = true then some x else none) = some r := h
    cases hnc : nameCompatible name x.name with
    | true =>
      rw [if_pos hnc] at h2
      cases h2
      exact ⟨List.mem_of_find?_eq_some hfind, by rw [List.filter_head?]; exact hfind⟩
    | false =>
      rw [if_neg (by simp [hnc])] at h2
      exact absurd h2 (by simp)

/-- Claim C4 as amended: the matcher is a deterministic function of the
record list in the order the database returns it, and any returned record
is an element of that list and is always the FIRST of its matching class
in that order: either the first record matching both name and firm
exactly, or the first record whose firm matches exactly (no explicit
ordering such as earliest-created is applied, so the outcome may differ
between permutations of the same record set, as the counterexample
shows). -/
theorem claim4_amended (name firm : Option String) (rs : List MatchRec) (r : MatchRec)
    (h : findMatchingInvestment name firm rs = some r) :
    r ∈ rs ∧
    ((∃ n f, name = some n ∧ firm = some f ∧
        rs.find? (fun x => ciEq x.name n && ciEq x.firm f) = some r) ∨
     (∃ f, firm = some f ∧ (rs.filter (fun x => ciEq x.firm f)).head? = some r)) := by
  unfold findMatchingInvestment at h
  have hnone : pyTruthy (none : Option String) = false := rfl
  cases name with
  | none =>
    cases firm with
    | none => simp [hnone] at h
    | some f =>
      cases hf : pyTruthy (some f) with
      | false => simp [hnone, hf] at h
      | true =>
        simp only [hnone, hf, Bool.not_false, Bool.not_true, Bool.true_and,
          Bool.and_false, Bool.false_and, Bool.false_eq_true, if_false, if_true,
          ite_false, ite_true] at h
        obtain ⟨hmem, hhead⟩ := step2_result h
        exact ⟨hmem, Or.inr ⟨f, rfl, hhead⟩⟩
  | some n =>
    cases firm with
    | none =>
      cases hn : pyTruthy (some n) with
      | false => simp [hnone, hn] at h
      | true => simp [hnone, hn] at h
    | some f =>
      cases hn : pyTruthy (some n) with
      | false =>
        cases hf : pyTruthy (some f) with
        | false => simp [hn, hf] at h
        | true =>
          simp only [hn, hf, Bool.not_false, Bool.not_true, Bool.true_and,
            Bool.and_false, Bool.false_and, Bool.and_true, Bool.false_eq_true,
            if_false, if_true, ite_false, ite_true] at h
          obtain ⟨hmem, hhead⟩ := step2_result h
          exact ⟨hmem, Or.inr ⟨f, rfl, hhead⟩⟩
      | true =>
        cases hf : pyTruthy (some f) with
        | false => simp [hn, hf] at h
        | true =>
          simp only [hn, hf, Bool.not_true, Bool.true_and, Bool.and_true,
            Bool.and_self, Bool.false_eq_true, if_false, if_true, ite_false,
            ite_true] at h
          cases hfind : List.find? (fun x => ciEq x.name n && ciEq x.firm f) rs with
          | some x =>
            rw [hfind] at h
            cases h
            exact ⟨List.mem_of_find?_eq_some hfind, Or.inl ⟨n, f, rfl, rfl, hfind⟩⟩
          | none =>
            rw [hfind] at h
            obtain ⟨hmem, hhead⟩ := step2_result h
            exact ⟨hmem, Or.inr ⟨f, rfl, hhead⟩⟩

/-- Claim C4 witness: the amended theorem applied to the Beta Capital
scenario. -/
theorem claim4_witness :
    recBeta ∈ [recBeta] ∧
    ((∃ n f, (none : Option String) = some n ∧
        (some "Beta Capital" : Option String) = some f ∧
        [recBeta].find? (fun x => ciEq x.name n && ciEq x.firm f) = some recBeta) ∨
     (∃ f, (some "Beta Capital" : Option String) = some f ∧
        ([recBeta].filter (fun x => ciEq x.firm f)).head? = some recBeta)) :=
  claim4_amended none (some "Beta Capital") [recBeta] recBeta (by decide)

/-! ## Pipeline claims (C5, C6, C7) -/

/-- A unit whose converter collaborator throws. -/
def failDoc : DocSpec := ⟨1, 1, "deck.pdf", .err "PDF conversion error", .ok [], []⟩

/-- Claim C5 counterexample: on the orchestrator path a converter failure
sets the unit to `failed` with the error recorded, but NO error-step
progress event is emitted (the exception handler in `process_email` only
logs): the count of error events is 0, not 1. -/
theorem claim5_counterexample :
    (processDocumentOrch failDoc emptyApp).2.1.status = "failed" ∧
    (processDocumentOrch failDoc emptyApp).2.1.errorMessage =
      some "PDF conversion error" ∧
    errorEventCount (processDocumentOrch failDoc emptyApp).1.events = 0 := by
  refine ⟨rfl, rfl, by decide⟩

/-- Claim C5 as amended: for every unit whose converter collaborator
throws, the unit ends `failed` with the collaborator's (non-empty) error
message recorded, no investment is created or mutated, no `FieldValue`
row is written and no link is added, and no investment is returned; on
the ExtractionService path exactly one error-step progress event is
emitted, while on the EmailOrchestrator path the failure is only logged
and no error-step event is emitted. -/
theorem claim5_amended (d : DocSpec) (st : AppState) (e : String)
    (hconv : d.conv = .err e) (hne : e ≠ "") :
    ((processDocumentSvc d st).2.1.status = "failed" ∧
     (processDocumentSvc d st).2.1.errorMessage = some e ∧
     (processDocumentSvc d st).2.1.errorMessage ≠ some "" ∧
     (processDocumentSvc d st).1.investments = st.investments ∧
     (processDocumentSvc d st).1.rows = st.rows ∧
     (processDocumentSvc d st).1.links = st.links ∧
     (processDocumentSvc d st).2.2 = none ∧
     errorEventCount (processDocumentSvc d st).1.events =
       errorEventCount st.events + 1) ∧
    ((processDocumentOrch d st).2.1.status = "failed" ∧
     (processDocumentOrch d st).2.1.errorMessage = some e ∧
     (processDocumentOrch d st).1.investments = st.investments ∧
     (processDocumentOrch d st).1.rows = st.rows ∧
     (processDocumentOrch d st).2.2 = none ∧
     errorEventCount (processDocumentOrch d st).1.events =
       errorEventCount st.events) := by
  constructor
  · refine ⟨by simp [processDocumentSvc, hconv], by simp [processDocumentSvc, hconv],
      ?_, by simp [processDocumentSvc, hconv, emitEvent],
      by simp [processDocumentSvc, hconv, emitEvent],
      by simp [processDocumentSvc, hconv, emitEvent],
      by simp [processDocumentSvc, hconv], ?_⟩
    · simp [processDocumentSvc, hconv, hne]
    · simp [processDocumentSvc, hconv, emitEvent, errorEventCount]
  · refine ⟨by simp [processDocumentOrch, hconv], by simp [processDocumentOrch, hconv],
      by simp [processDocumentOrch, hconv, emitEvent],
      by simp [processDocumentOrch, hconv, emitEvent],
      by simp [processDocumentOrch, hconv], ?_⟩
    simp [processDocumentOrch, hconv, emitEvent, errorEventCount]

/-- Claim C5 witness: the amended theorem applied to a concrete failing
unit over the genesis state. -/
theorem claim5_witness :
    (processDocumentSvc failDoc emptyApp).2.1.status = "failed" ∧
    errorEventCount (processDocumentSvc failDoc emptyApp).1.events =
      errorEventCount emptyApp.events + 1 ∧
    errorEventCount (processDocumentOrch failDoc emptyApp).1.events =
      errorEventCount emptyApp.events := by
  have h := claim5_amended failDoc emptyApp "PDF conversion error" rfl (by decide)
  exact ⟨h.1.1, h.1.2.2.2.2.2.2.2, h.2.2.2.2.2.2⟩

/-- A Gmail message with one PDF attachment, used as a concrete
ingestion input. -/
def sampleMsg : GmailMsg :=
  ⟨"m1", [MsgPart.node "deck.pdf" (some "att1") []],
    [("Subject", "Fund deck"), ("From", "a@b.co")]⟩

/-- A mail store at genesis. -/
def emptyMail : MailState := ⟨[], [], [], 1⟩

/-- Claim C6 counterexample: the SKIPPED transition is not taken from
PENDING.  Ingestion (`process_message`) creates every `Email` row with
status `processing`, and the triage-NO branch of `process_email` then
moves that email to `skipped` — so `skipped` is entered from
`processing`, not from `pending`. -/
theorem claim6_counterexample :
    (processMessage sampleMsg emptyMail).1.emails.map EmailRow.status =
      ["processing"] ∧
    ("processing" : String) ≠ "pending" ∧
    (processEmail (.ok .no) "Fund deck" [] "processing" emptyApp).2.1 =
      "skipped" := by
  refine ⟨by decide, by decide, rfl⟩

/-- Claim C6 as amended: a "not relevant" (NO) classification is a normal
non-failure outcome: the email transitions to `skipped` (from
`processing`, the status ingestion gives it — not from `pending`),
exactly one progress event (step "triage") is emitted, no `FieldValue`
row is written, no investment is created, the documents stay pending, and
the pipeline returns the empty list. -/
theorem claim6_amended (tri : CollabResult TriageClass) (subject : String)
    (docs : List DocSpec) (emailStatus : String) (st : AppState)
    (h : classOf tri = .no) :
    (processEmail tri subject docs emailStatus st).2.1 = "skipped" ∧
    (processEmail tri subject docs emailStatus st).2.2.2 = [] ∧
    (processEmail tri subject docs emailStatus st).1.rows = st.rows ∧
    (processEmail tri subject docs emailStatus st).1.investments =
      st.investments ∧
    (processEmail tri subject docs emailStatus st).1.events =
      st.events ++ [⟨"triage", "Skipped: " ++ subject ++ " (not investment-related)"⟩] ∧
    (processEmail tri subject docs emailStatus st).2.2.1 =
      docs.map (fun _ => ⟨"pending", none, none⟩) := by
  refine ⟨?_, ?_, ?_, ?_, ?_, ?_⟩ <;> simp [processEmail, h, emitEvent]

/-- Claim C6 witness: the amended theorem applied to a concrete NO
triage over the genesis state. -/
theorem claim6_witness :
    (processEmail (.ok .no) "Fund deck" [] "processing" emptyApp).2.1 =
      "skipped" ∧
    (processEmail (.ok .no) "Fund deck" [] "processing" emptyApp).1.rows =
      emptyApp.rows := by
  have h := claim6_amended (.ok .no) "Fund deck" [] "processing" emptyApp rfl
  exact ⟨h.1, h.2.2.1⟩

/-- The unit state `process_document` leaves on the service path, a
function of the unit's own collaborator outcomes alone. -/
def svcDocState (d : DocSpec) : DocState :=
  match d.conv with
  | .err e => ⟨"failed", some e, none⟩
  | .ok md =>
    match d.ext with
    | .err e => ⟨"failed", some e, some md⟩
    | .ok _ => ⟨"completed", none, some md⟩

/-- The unit state `_process_document` (with `process_email`'s handler)
leaves on the orchestrator path. -/
def orchDocState (d : DocSpec) : DocState :=
  match d.conv with
  | .err e => ⟨"failed", some e, none⟩
  | .ok md =>
    match d.ext with
    | .err e => ⟨"failed", some ("Extraction failed: " ++ e), some md⟩
    | .ok _ => ⟨"completed", none, some md⟩

theorem processDocumentSvc_docState (d : DocSpec) (st : AppState) :
    (processDocumentSvc d st).2.1 = svcDocState d := by
  cases hc : d.conv with
  | err e => simp [processDocumentSvc, svcDocState, hc]
  | ok md =>
    cases he : d.ext with
    | err e => simp [processDocumentSvc, svcDocState, hc, he]
    | ok fields => simp [processDocumentSvc, svcDocState, hc, he]

theorem processDocumentOrch_docState (d : DocSpec) (st : AppState) :
    (processDocumentOrch d st).2.1 = orchDocState d := by
  cases hc : d.conv with
  | err e => simp [processDocumentOrch, orchDocState, hc]
  | ok md =>
    cases he : d.ext with
    | err e => simp [processDocumentOrch, orchDocState, hc, he]
    | ok fields => simp [processDocumentOrch, orchDocState, hc, he]

theorem foldl_svcBatchStep (docs : List DocSpec) :
    ∀ acc : AppState × List DocState × List Nat,
      (docs.foldl svcBatchStep acc).2.1 = acc.2.1 ++ docs.map svcDocState := by
  induction docs with
  | nil => intro acc; simp
  | cons d ds ih =>
    intro acc
    rw [List.foldl_cons, ih (svcBatchStep acc d)]
    have hstep : (svcBatchStep acc d).2.1 = acc.2.1 ++ [svcDocState d] := by
      simp [svcBatchStep, processDocumentSvc_docState]
    rw [hstep, List.map_cons, List.append_assoc]
    rfl

theorem foldl_orchBatchStep (docs : List DocSpec) :
    ∀ acc : AppState × List DocState × List Nat,
      (docs.foldl orchBatchStep acc).2.1 = acc.2.1 ++ docs.map orchDocState := by
  induction docs with
  | nil => intro acc; simp
  | cons d ds ih =>
    intro acc
    rw [List.foldl_cons, ih (orchBatchStep acc d)]
    have hstep : (orchBatchStep acc d).2.1 = acc.2.1 ++ [orchDocState d] := by
      simp [orchBatchStep, processDocumentOrch_docState]
    rw [hstep, List.map_cons, List.append_assoc]
    rfl

theorem svcDocState_status (d : DocSpec) : (svcDocState d).status = ownStatus d := by
  cases hc : d.conv with
  | err e => simp [svcDocState, ownStatus, hc]
  | ok md =>
    cases he : d.ext with
    | err e => simp [svcDocState, ownStatus, hc, he]
    | ok fields => simp [svcDocState, ownStatus, hc, he]

theorem orchDocState_status (d : DocSpec) : (orchDocState d).status = ownStatus d := by
  cases hc : d.conv with
  | err e => simp [orchDocState, ownStatus, hc]
  | ok md =>
    cases he : d.ext with
    | err e => simp [orchDocState, ownStatus, hc, he]
    | ok fields => simp [orchDocState, ownStatus, hc, he]

theorem svcDocState_error (d : DocSpec) :
    (svcDocState d).errorMessage = ownErrorSvc d := by
  cases hc : d.conv with
  | err e => simp [svcDocState, ownErrorSvc, hc]
  | ok md =>
    cases he : d.ext with
    | err e => simp [svcDocState, ownErrorSvc, hc, he]
    | ok fields => simp [svcDocState, ownErrorSvc, hc, he]

theorem orchDocState_error (d : DocSpec) :
    (orchDocState d).errorMessage = ownErrorOrch d := by
  cases hc : d.conv with
  | err e => simp [orchDocState, ownErrorOrch, hc]
  | ok md =>
    cases he : d.ext with
    | err e => simp [orchDocState, ownErrorOrch, hc, he]
    | ok fields => simp [orchDocState, ownErrorOrch, hc, he]

/-- Claim C7: in both batch drivers, every unit in a batch reaches the
terminal state determined by its OWN collaborator outcomes (failed with
its own error recorded, or completed), regardless of the outcomes of its
siblings: an exception in one unit is caught at that unit's boundary and
never aborts the rest of the batch. -/
theorem claim7_batch_isolation (docs : List DocSpec) (st : AppState)
    (tri : CollabResult TriageClass) (subject : String) (emailStatus : String)
    (h : classOf tri ≠ .no) :
    ((processPendingDocuments docs st).2.1.map DocState.status =
        docs.map ownStatus ∧
     (processPendingDocuments docs st).2.1.map DocState.errorMessage =
        docs.map ownErrorSvc) ∧
    ((processEmail tri subject docs emailStatus st).2.2.1.map DocState.status =
        docs.map ownStatus ∧
     (processEmail tri subject docs emailStatus st).2.2.1.map DocState.errorMessage =
        docs.map ownErrorOrch) := by
  have hfs : (fun d => (svcDocState d).status) = ownStatus :=
    funext fun d => svcDocState_status d
  have hfe : (fun d => (svcDocState d).errorMessage) = ownErrorSvc :=
    funext fun d => svcDocState_error d
  have hos : (fun d => (orchDocState d).status) = ownStatus :=
    funext fun d => orchDocState_status d
  have hoe : (fun d => (orchDocState d).errorMessage) = ownErrorOrch :=
    funext fun d => orchDocState_error d
  constructor
  · cases docs with
    | nil => exact ⟨rfl, rfl⟩
    | cons d ds =>
      constructor
      · rw [show processPendingDocuments (d :: ds) st =
            ((d :: ds).foldl svcBatchStep
              (emitEvent st "processing"
                ("Found " ++ toString (d :: ds).length ++ " documents to process"),
               [], [])) from rfl, foldl_svcBatchStep, List.nil_append,
          List.map_map, Function.comp_def, hfs]
      · rw [show processPendingDocuments (d :: ds) st =
            ((d :: ds).foldl svcBatchStep
              (emitEvent st "processing"
                ("Found " ++ toString (d :: ds).length ++ " documents to process"),
               [], [])) from rfl, foldl_svcBatchStep, List.nil_append,
          List.map_map, Function.comp_def, hfe]
  · constructor
    · rw [processEmail, if_neg h, foldl_orchBatchStep, List.nil_append,
        List.map_map, Function.comp_def, hos]
    · rw [processEmail, if_neg h, foldl_orchBatchStep, List.nil_append,
        List.map_map, Function.comp_def, hoe]

/-- Claim C7 witness: the batch-isolation theorem applied to a concrete
batch whose single unit fails. -/
theorem claim7_witness :
    ((processPendingDocuments [failDoc] emptyApp).2.1.map DocState.status =
        [failDoc].map ownStatus ∧
     (processPendingDocuments [failDoc] emptyApp).2.1.map DocState.errorMessage =
        [failDoc].map ownErrorSvc) ∧
    ((processEmail (.ok .yes) "s" [failDoc] "processing" emptyApp).2.2.1.map
        DocState.status = [failDoc].map ownStatus ∧
     (processEmail (.ok .yes) "s" [failDoc] "processing" emptyApp).2.2.1.map
        DocState.errorMessage = [failDoc].map ownErrorOrch) :=
  claim7_batch_isolation [failDoc] emptyApp (.ok .yes) "s" "processing" (by decide)

/-! ## Progress bus claim (C8) -/

/-- Claim C8: the bus is broadcast with per-subscriber bounded queues.
Every subscriber whose queue exists when an event is emitted receives the
event appended to its own queue exactly when the queue has room
(fewer than its 100-slot bound); a full queue drops the event for that
subscriber only, all other queues still receive it, and the emit call is
a total state update (it never blocks).  The event is always appended to
the historical list, and a new subscriber starts with an empty queue:
events emitted before its subscription are never replayed to it. -/
theorem claim8_bus (t : Tracker) (e : Event) (i : Nat) (q : List Event)
    (h : t.listeners[i]? = some q) :
    (trackerEmit t e).listeners[i]? =
      some (if q.length < 100 then q ++ [e] else q) ∧
    (trackerEmit t e).events = t.events ++ [e] ∧
    (trackerSubscribe t).1.listeners.getLast? = some [] := by
  refine ⟨?_, rfl, ?_⟩
  · simp [trackerEmit, List.getElem?_map, h]
  · simp [trackerSubscribe, List.getLast?_concat]

/-- A tracker with one subscriber holding an empty queue. -/
def sampleTracker : Tracker := ⟨[], [[]], ""⟩

/-- A sample progress event. -/
def sampleEvent : Event := ⟨"processing", "Converting PDF: deck.pdf"⟩

/-- Claim C8 witness: the bus theorem applied to a concrete tracker with
one empty-queue subscriber. -/
theorem claim8_witness :
    (trackerEmit sampleTracker sampleEvent).listeners[0]? =
      some (if ([] : List Event).length < 100 then [] ++ [sampleEvent] else []) ∧
    (trackerEmit sampleTracker sampleEvent).events =
      sampleTracker.events ++ [sampleEvent] ∧
    (trackerSubscribe sampleTracker).1.listeners.getLast? = some [] :=
  claim8_bus sampleTracker sampleEvent 0 [] rfl

/-! ## Ingestion idempotence claim (C10) -/

/-- Claim C10: ingesting the same Gmail message twice is idempotent.  A
message id already recorded as an `Email` row makes `process_message`
return `None` and leave the store untouched (no new `Email` or `Document`
row, no saved attachment file); and whenever a call does create rows
(returning the new email), an immediately repeated call for the same
message returns `None` and changes nothing. -/
theorem claim10_idempotent (msg : GmailMsg) (st : MailState) :
    (isMessageProcessed st msg.mid = true → processMessage msg st = (st, none)) ∧
    (∀ (st1 : MailState) (e : Nat), processMessage msg st = (st1, some e) →
      processMessage msg st1 = (st1, none)) := by
  constructor
  · intro h
    simp [processMessage, h]
  · intro st1 e h
    by_cases hp : isMessageProcessed st msg.mid = true
    · simp [processMessage, hp] at h
    · by_cases ha : (scanParts msg.payload).isEmpty = true
      · simp [processMessage, hp, ha] at h
      · simp only [processMessage, hp, ha, Bool.false_eq_true, if_false,
          ite_false] at h
        injection h with h1 h2
        subst h1
        have hrec : isMessageProcessed
            (⟨st.emails ++ [⟨st.nextId, msg.mid, extractHeader msg.headers "Subject",
                extractHeader msg.headers "From", "processing"⟩],
              st.documents ++ (scanParts msg.payload).map (fun a =>
                (⟨st.nextId, sanitizeFilename a.1, attachmentPath st.nextId a.1,
                  "pending"⟩ : DocRow)),
              st.files ++ (scanParts msg.payload).map
                (fun a => attachmentPath st.nextId a.1),
              st.nextId + 1⟩ : MailState) msg.mid = true := by
          simp [isMessageProcessed, List.any_append]
        simp [processMessage, hrec]

/-- A mail store already holding an `Email` row for message "m1". -/
def recordedMail : MailState := ⟨[⟨5, "m1", none, none, "processing"⟩], [], [], 6⟩

/-- Claim C10 witness: the idempotence theorem applied to a concrete
message, both against a store already holding its row and against the
store produced by a first successful ingestion of it. -/
theorem claim10_witness :
    processMessage sampleMsg recordedMail = (recordedMail, none) ∧
    processMessage sampleMsg (processMessage sampleMsg emptyMail).1 =
      ((processMessage sampleMsg emptyMail).1, none) := by
  constructor
  · exact (claim10_idempotent sampleMsg recordedMail).1 (by decide)
  · exact (claim10_idempotent sampleMsg emptyMail).2
      (processMessage sampleMsg emptyMail).1 1 (by decide)

end FourthNote
